import Mathlib

/-!
Verification development for the changelogger repository (parser.ts,
utils.ts, cache.ts, types.ts).

The TypeScript sources are shallowly embedded below.  JavaScript strings
are modelled as Lean `String` / `List Char`; JavaScript numbers used by
the code (version components, timestamps, mtimes) are modelled as
`Nat` / `Int`; `undefined`-able values become `Option`.
`String.prototype.localeCompare` is modelled as code-point lexicographic
comparison (spec 4.1 calls the fallback "lexicographic string
comparison").  `DateUtils.formatShortDate` relies on JavaScript `Date`
parsing, so the Markdown renderer takes it as an explicit function
parameter `fmtDate`.
-/

/-- Whitespace test used by `trim`, `\s` and friends (ASCII model of the
JavaScript whitespace classes). -/
def wsChar (c : Char) : Bool :=
  c = ' ' || c = '\t' || c = '\r' || c = '\n'

/-- Model of `String.prototype.trim` on character lists. -/
def trimChars (l : List Char) : List Char :=
  ((l.dropWhile wsChar).reverse.dropWhile wsChar).reverse

/-- Model of `String.prototype.trim`. -/
def strTrim (s : String) : String :=
  ⟨trimChars s.data⟩

/-- Model of `String.prototype.toLowerCase` (ASCII case folding). -/
def lowerStr (s : String) : String :=
  ⟨s.data.map Char.toLower⟩

/-- Model of `replace(/\s+/g, ' ')`: every maximal whitespace run becomes
a single space. -/
def collapseWs : List Char → List Char
  | [] => []
  | [c] => if wsChar c then [' '] else [c]
  | c1 :: c2 :: rest =>
    if wsChar c1 && wsChar c2 then collapseWs (c2 :: rest)
    else (if wsChar c1 then ' ' else c1) :: collapseWs (c2 :: rest)

/-- Code-point lexicographic three-way comparison; model of
`String.prototype.localeCompare` (sign is all the callers use). -/
def lexCmp : List Char → List Char → Int
  | [], [] => 0
  | [], _ :: _ => -1
  | _ :: _, [] => 1
  | a :: as, b :: bs =>
    if a < b then -1 else if b < a then 1 else lexCmp as bs

/-- `localeCompare` at the `String` level. -/
def localeCompare (a b : String) : Int :=
  lexCmp a.data b.data

/- ===================== types.ts: data model ===================== -/

/-- types.ts `ChangelogEntry`. -/
structure ChangelogEntry where
  description : String
deriving DecidableEq

/-- The six recognized change categories (the keys of `VersionChanges`). -/
inductive Category where
  | added | changed | deprecated | removed | fixed | security
deriving DecidableEq

/-- types.ts `VersionChanges`: six optional entry lists.  A `none` field
models an absent key, `some []` a key bound to an empty array. -/
structure VersionChanges where
  added : Option (List ChangelogEntry) := none
  changed : Option (List ChangelogEntry) := none
  deprecated : Option (List ChangelogEntry) := none
  removed : Option (List ChangelogEntry) := none
  fixed : Option (List ChangelogEntry) := none
  security : Option (List ChangelogEntry) := none
deriving DecidableEq

/-- Dynamic read `changes[section]`. -/
def VersionChanges.get (vc : VersionChanges) : Category → Option (List ChangelogEntry)
  | .added => vc.added
  | .changed => vc.changed
  | .deprecated => vc.deprecated
  | .removed => vc.removed
  | .fixed => vc.fixed
  | .security => vc.security

/-- Dynamic write `changes[section] = v`. -/
def VersionChanges.set (vc : VersionChanges) : Category → Option (List ChangelogEntry) → VersionChanges
  | .added, v => { vc with added := v }
  | .changed, v => { vc with changed := v }
  | .deprecated, v => { vc with deprecated := v }
  | .removed, v => { vc with removed := v }
  | .fixed, v => { vc with fixed := v }
  | .security, v => { vc with security := v }

/-- types.ts `Version`. -/
structure Version where
  version : String
  date : Option String := none
  changes : VersionChanges := {}
deriving DecidableEq

/-- types.ts `Repository`. -/
structure Repository where
  name : String
  path : String
  versions : List Version := []
  unreleased : Option VersionChanges := none
deriving DecidableEq

/-- types.ts `ChangelogEntryWithVersion`. -/
structure ChangelogEntryWithVersion where
  description : String
  version : String
  date : Option String := none
deriving DecidableEq

/-- types.ts `VersionChangesWithVersion`. -/
structure VersionChangesWithVersion where
  added : Option (List ChangelogEntryWithVersion) := none
  changed : Option (List ChangelogEntryWithVersion) := none
  deprecated : Option (List ChangelogEntryWithVersion) := none
  removed : Option (List ChangelogEntryWithVersion) := none
  fixed : Option (List ChangelogEntryWithVersion) := none
  security : Option (List ChangelogEntryWithVersion) := none
deriving DecidableEq

/-- Dynamic read `combined[section]`. -/
def VersionChangesWithVersion.get (vc : VersionChangesWithVersion) :
    Category → Option (List ChangelogEntryWithVersion)
  | .added => vc.added
  | .changed => vc.changed
  | .deprecated => vc.deprecated
  | .removed => vc.removed
  | .fixed => vc.fixed
  | .security => vc.security

/-- types.ts `MarkdownDiff` as produced by `formatMarkdownDiff` (the
object literal carries `content` and `title`). -/
structure MarkdownDiff where
  content : String
  title : String
deriving DecidableEq

/- ===================== utils.ts: VersionUtils ===================== -/

/-- `l.takeWhile isDigit, l.dropWhile isDigit` pair. -/
def spanDigits (l : List Char) : List Char × List Char :=
  (l.takeWhile Char.isDigit, l.dropWhile Char.isDigit)

/-- `parseInt(digits, 10)` on a digit run. -/
def digitsToNat (l : List Char) : Nat :=
  l.foldl (fun a c => a * 10 + (c.toNat - 48)) 0

/-- utils.ts `VersionUtils.parseVersion`: recognizes
`^(\d+)\.(\d+)\.(\d+)(?:-.*)?(?:\+.*)?$` and returns the decimal triple;
after the patch digits the remainder must be empty or start with a
pre-release dash or build-metadata plus. -/
def parseVersion (s : String) : Option (Nat × Nat × Nat) :=
  let (d1, r1) := spanDigits s.data
  if d1.isEmpty then none else
  match r1 with
  | '.' :: r2 =>
    let (d2, r3) := spanDigits r2
    if d2.isEmpty then none else
    match r3 with
    | '.' :: r4 =>
      let (d3, r5) := spanDigits r4
      if d3.isEmpty then none else
      match r5 with
      | [] => some (digitsToNat d1, digitsToNat d2, digitsToNat d3)
      | '-' :: _ => some (digitsToNat d1, digitsToNat d2, digitsToNat d3)
      | '+' :: _ => some (digitsToNat d1, digitsToNat d2, digitsToNat d3)
      | _ => none
    | _ => none
  | _ => none

/-- utils.ts `VersionUtils.compareVersions`: numeric triple comparison
when both sides parse, `localeCompare` fallback otherwise. -/
def compareVersions (version1 version2 : String) : Int :=
  match parseVersion version1, parseVersion version2 with
  | some v1, some v2 =>
    if v1.1 ≠ v2.1 then (v1.1 : Int) - v2.1
    else if v1.2.1 ≠ v2.2.1 then (v1.2.1 : Int) - v2.2.1
    else (v1.2.2 : Int) - v2.2.2
  | _, _ => localeCompare version1 version2

/-- utils.ts `VersionUtils.isVersionNewer`. -/
def isVersionNewer (version baseVersion : String) : Bool :=
  compareVersions version baseVersion > 0

/-- utils.ts `VersionUtils.isVersionInRange` (the unused
`compareToStart`/`compareToEnd` locals are dead code and omitted). -/
def isVersionInRange (version startVersion endVersion : String) : Bool :=
  let minVersion := if compareVersions startVersion endVersion ≤ 0 then startVersion else endVersion
  let maxVersion := if compareVersions startVersion endVersion ≤ 0 then endVersion else startVersion
  decide (compareVersions version minVersion ≥ 0) &&
    decide (compareVersions version maxVersion ≤ 0)

/- ===================== utils.ts: TitleUtils ===================== -/

/-- The character class `[#*_`…`~\[\](){}]` of the first `replace`. -/
def mdStripChars : List Char :=
  ['#', '*', '_', Char.ofNat 96, '~', '[', ']', '(', ')', Char.ofNat 123, Char.ofNat 125]

/-- utils.ts `TitleUtils.sanitizeTitle`: strip markdown characters, strip
angle brackets, collapse whitespace runs, trim, truncate to 128
characters and trim again. -/
def sanitizeTitle (title : String) : String :=
  if title = "" then "" else
  let s1 := title.data.filter (fun c => ¬ c ∈ mdStripChars)
  let s2 := s1.filter (fun c => c ≠ '<' && c ≠ '>')
  let s3 := trimChars (collapseWs s2)
  if s3.length > 128 then ⟨trimChars (s3.take 128)⟩ else ⟨s3⟩

/- ===================== parser.ts: ChangelogParser ===================== -/

/-- Match of `/^##\s*\[([^\]]+)\](?:\s*-\s*(.+))?/` against a (trimmed)
line: returns the bracketed label and the optional date capture. -/
def versionHeader? (t : String) : Option (String × Option String) :=
  match t.data with
  | '#' :: '#' :: rest =>
    match rest.dropWhile wsChar with
    | '[' :: r2 =>
      let label := r2.takeWhile (fun c => c ≠ ']')
      match r2.dropWhile (fun c => c ≠ ']') with
      | ']' :: r4 =>
        if label.isEmpty then none
        else
          let date :=
            match r4.dropWhile wsChar with
            | '-' :: r6 =>
              let d := r6.dropWhile wsChar
              if d.isEmpty then none else some (⟨d⟩ : String)
            | _ => none
          some (⟨label⟩, date)
      | _ => none
    | _ => none
  | _ => none

/-- Match of `/^###\s+(.+)/` against a (trimmed) line: returns the
capture after the whitespace run. -/
def sectionName? (t : String) : Option String :=
  match t.data with
  | '#' :: '#' :: '#' :: c :: rest =>
    if wsChar c then
      let r := (c :: rest).dropWhile wsChar
      if r.isEmpty then none else some ⟨r⟩
    else none
  | _ => none

/-- Match of `/^[-*]\s+(.+)/` against a (trimmed) line: returns the
capture after the whitespace run. -/
def listItem? (t : String) : Option String :=
  match t.data with
  | c :: c2 :: rest =>
    if (c = '-' || c = '*') && wsChar c2 then
      let r := (c2 :: rest).dropWhile wsChar
      if r.isEmpty then none else some ⟨r⟩
    else none
  | _ => none

/-- The `validSections` membership test combined with the cast to a
section key. -/
def validSection? (s : String) : Option Category :=
  if s = "added" then some .added
  else if s = "changed" then some .changed
  else if s = "deprecated" then some .deprecated
  else if s = "removed" then some .removed
  else if s = "fixed" then some .fixed
  else if s = "security" then some .security
  else none

/-- Loop state of `parseContent`: accumulated versions and `unreleased`
plus the mutable `currentVersion` / `currentSection` / `isUnreleased`. -/
structure ParseState where
  versions : List Version := []
  unreleased : Option VersionChanges := none
  currentVersion : Option Version := none
  currentSection : Option Category := none
  isUnreleased : Bool := false
deriving DecidableEq

/-- The "save previous version" logic that runs on every new version
header and once more after the loop. -/
def flushCurrent (st : ParseState) : ParseState :=
  match st.currentVersion with
  | none => st
  | some cv =>
    if st.isUnreleased then { st with unreleased := some cv.changes }
    else { st with versions := st.versions ++ [cv] }

/-- One iteration of the `for (const line of lines)` loop of
`parseContent`. -/
def parseStep (st : ParseState) (line : String) : ParseState :=
  let t := strTrim line
  if t = "" then st
  else
    match versionHeader? t with
    | some (label, rawDate) =>
      let st1 := flushCurrent st
      let versionName := strTrim label
      let dateStr := rawDate.map strTrim
      let date := match dateStr with
        | some d => if d = "" then none else some d
        | none => none
      { st1 with
          currentVersion := some { version := versionName, date := date, changes := {} },
          currentSection := none,
          isUnreleased := lowerStr versionName = "unreleased" }
    | none =>
      match sectionName? t with
      | some raw =>
        match st.currentVersion with
        | some cv =>
          let sectionNm := lowerStr (strTrim raw)
          (match validSection? sectionNm with
           | some cat =>
             let cv' :=
               if (cv.changes.get cat).isNone then
                 { cv with changes := cv.changes.set cat (some []) }
               else cv
             { st with currentSection := some cat, currentVersion := some cv' }
           | none => st)
        | none => st
      | none =>
        match listItem? t with
        | some capture =>
          match st.currentVersion, st.currentSection with
          | some cv, some cat =>
            let description := strTrim capture
            let cur := (cv.changes.get cat).getD []
            let entry : ChangelogEntry := ⟨description⟩
            let cv' := { cv with changes := cv.changes.set cat (some (cur ++ [entry])) }
            { st with currentVersion := some cv' }
          | _, _ => st
        | none => st

/-- `content.split('\n')` on character lists. -/
def splitLines (l : List Char) : List (List Char) :=
  match l with
  | [] => [[]]
  | c :: rest =>
    let r := splitLines rest
    if c = '\n' then [] :: r
    else match r with
      | [] => [[c]]
      | h :: tl => (c :: h) :: tl

/-- parser.ts `ChangelogParser.parseContent`, with the repository name
and path supplied by the constructor. -/
def parseContent (repoName repoPath : String) (content : String) : Repository :=
  let lines := (splitLines content.data).map (fun l => (⟨l⟩ : String))
  let final := flushCurrent (lines.foldl parseStep {})
  { name := repoName, path := repoPath,
    versions := final.versions, unreleased := final.unreleased }

/- ============== utils.ts: ChangelogDiffUtils (pure parts) ============== -/

/-- utils.ts `ChangelogDiffUtils.filterVersionsSince`.  The `since`
argument is `Option String` (`none` = JavaScript `null`); the JavaScript
guard `!sinceVersion || sinceVersion.trim() === ''` collapses to a test
on the trimmed value, since `''` trims to `''`. -/
def filterVersionsSince (repository : Repository) (sinceVersion : Option String) : List Version :=
  match sinceVersion with
  | none => repository.versions
  | some s =>
    if strTrim s = "" then repository.versions
    else repository.versions.filter (fun v => isVersionNewer v.version s)

/-- utils.ts `ChangelogDiffUtils.filterVersionsBetween`. -/
def filterVersionsBetween (repository : Repository) (version1 version2 : String) : List Version :=
  repository.versions.filter (fun v => isVersionInRange v.version version1 version2)

/-- The entries collected for one section by the inner loop of
`combineChangesWithVersions`: each version contributes its entries for
that section (an absent key contributes nothing), in order. -/
def sectionEntries (versions : List Version) (c : Category) : List ChangelogEntryWithVersion :=
  (versions.map (fun v =>
    ((v.changes.get c).getD []).map
      (fun e => { description := e.description, version := v.version, date := v.date }))).flatten

/-- One section of the combined output: present only when at least one
entry was found (`if (entries.length > 0)`), absent otherwise. -/
def combineSection (versions : List Version) (c : Category) :
    Option (List ChangelogEntryWithVersion) :=
  let entries := sectionEntries versions c
  if entries.isEmpty then none else some entries

/-- utils.ts `ChangelogDiffUtils.combineChangesWithVersions`: the loop
over the six sections in fixed order, written field-wise (each
iteration only assigns its own section key). -/
def combineChangesWithVersions (versions : List Version) : VersionChangesWithVersion :=
  { added := combineSection versions .added
    changed := combineSection versions .changed
    deprecated := combineSection versions .deprecated
    removed := combineSection versions .removed
    fixed := combineSection versions .fixed
    security := combineSection versions .security }

/-- The fixed `(key, display title)` section table of
`formatMarkdownDiff`. -/
def sectionTable : List (Category × String) :=
  [(.added, "Added"), (.changed, "Changed"), (.deprecated, "Deprecated"),
   (.removed, "Removed"), (.fixed, "Fixed"), (.security, "Security")]

/-- One `- [version] (date)? description` line of the rendered Markdown;
`fmtDate` stands for `DateUtils.formatShortDate` and the JavaScript
truthiness tests on `entry.date` and the formatted date are explicit. -/
def entryLine (fmtDate : String → String) (withDates : Bool)
    (e : ChangelogEntryWithVersion) : String :=
  let base := "- [" ++ e.version ++ "]"
  let base2 :=
    match e.date with
    | some d =>
      if withDates && d ≠ "" then
        let f := fmtDate d
        if f ≠ "" then base ++ " (" ++ f ++ ")" else base
      else base
    | none => base
  base2 ++ " " ++ e.description

/-- `Array.prototype.join('\n')`. -/
def joinLines : List String → String
  | [] => ""
  | l :: rest => rest.foldl (fun a s => a ++ "\n" ++ s) l

/-- The lines a single present non-empty section contributes. -/
def sectionLines (fmtDate : String → String) (withDates : Bool)
    (changes : VersionChangesWithVersion) (sec : Category × String) : List String :=
  match changes.get sec.1 with
  | some entries =>
    if entries.isEmpty then []
    else ["## " ++ sec.2, ""] ++ entries.map (entryLine fmtDate withDates) ++ [""]
  | none => []

/-- utils.ts `ChangelogDiffUtils.formatMarkdownDiff`. -/
def formatMarkdownDiff (fmtDate : String → String) (repoName : String)
    (changes : VersionChangesWithVersion) (title : String) (withDates : Bool) : MarkdownDiff :=
  let header := ["# " ++ title, ""]
  let body := (sectionTable.map (sectionLines fmtDate withDates changes)).flatten
  let hasContent := sectionTable.any (fun sec =>
    match changes.get sec.1 with
    | some entries => !entries.isEmpty
    | none => false)
  let lines := header ++ body ++
    (if hasContent then [] else ["No changes found in the specified version range.", ""])
  { content := joinLines lines, title := title }

/-- The cache key of `createSinceDiff`: `sinceVersion || 'complete'`
(`none` and the falsy empty string both yield the literal marker). -/
def sinceCacheKey (sinceVersion : Option String) : String :=
  match sinceVersion with
  | none => "complete"
  | some s => if s = "" then "complete" else s

/-- Truthiness of the optional `customTitle` argument. -/
def optTruthy (o : Option String) : Bool :=
  match o with
  | some s => s ≠ ""
  | none => false

/-- The `!sinceVersion || sinceVersion.trim() === ''` test. -/
def sinceIsBlank (sinceVersion : Option String) : Bool :=
  match sinceVersion with
  | none => true
  | some s => s = "" || strTrim s = ""

/-- The sequential title assignments of `createSinceDiff`: start from
`'New updates!'`, overwrite with a non-empty sanitized custom title, and
finally overwrite with `'Complete Changelog'` only when no version was
given AND `customTitle` is falsy. -/
def resolveSinceTitle (sinceVersion customTitle : Option String) : String :=
  let t1 :=
    if optTruthy customTitle then
      let sanitized := sanitizeTitle (customTitle.getD "")
      if sanitized ≠ "" then sanitized else "New updates!"
    else "New updates!"
  if sinceIsBlank sinceVersion && !optTruthy customTitle then "Complete Changelog" else t1

/-- utils.ts `ChangelogDiffUtils.createSinceDiff` for a fixed source-file
state: `cache` abstracts `cacheManager.get(repo.name, repo.path,
'since', key)` (the write-through on a miss does not affect this call's
result and is captured by the cache-consistency invariant used below). -/
def createSinceDiff (fmtDate : String → String) (repository : Repository)
    (cache : String → Option VersionChangesWithVersion)
    (sinceVersion customTitle : Option String) (withDates : Bool) : MarkdownDiff :=
  let cacheKey := sinceCacheKey sinceVersion
  let combinedChanges :=
    match cache cacheKey with
    | some c => c
    | none => combineChangesWithVersions (filterVersionsSince repository sinceVersion)
  let title := resolveSinceTitle sinceVersion customTitle
  formatMarkdownDiff fmtDate repository.name combinedChanges title withDates

/-- The uncached computation `combine(filterSince(repo, since))`,
rendered with the same title resolution — the reference createSinceDiff
is compared against. -/
def uncachedSinceDiff (fmtDate : String → String) (repository : Repository)
    (sinceVersion customTitle : Option String) (withDates : Bool) : MarkdownDiff :=
  formatMarkdownDiff fmtDate repository.name
    (combineChangesWithVersions (filterVersionsSince repository sinceVersion))
    (resolveSinceTitle sinceVersion customTitle) withDates

/-- Response shape of `createRangeDiff` (spread of the MarkdownDiff plus
the resolved pair). -/
structure RangeDiff where
  content : String
  title : String
  fromVersion : String
  toVersion : String
deriving DecidableEq

/-- The cache key `` `${minVersion}_${maxVersion}` `` built by
`createRangeDiff`. -/
def rangeCacheKey (version1 version2 : String) : String :=
  let minVersion := if compareVersions version1 version2 ≤ 0 then version1 else version2
  let maxVersion := if compareVersions version1 version2 ≤ 0 then version2 else version1
  minVersion ++ "_" ++ maxVersion

/-- utils.ts `ChangelogDiffUtils.createRangeDiff` for a fixed
source-file state; `cache` abstracts `cacheManager.get(repo.name,
repo.path, 'diff', key)` as in `createSinceDiff`. -/
def createRangeDiff (fmtDate : String → String) (repository : Repository)
    (cache : String → Option VersionChangesWithVersion)
    (version1 version2 : String) (withDates : Bool) : RangeDiff :=
  let minVersion := if compareVersions version1 version2 ≤ 0 then version1 else version2
  let maxVersion := if compareVersions version1 version2 ≤ 0 then version2 else version1
  let cacheKey := minVersion ++ "_" ++ maxVersion
  let combinedChanges :=
    match cache cacheKey with
    | some c => c
    | none => combineChangesWithVersions (filterVersionsBetween repository version1 version2)
  let title := "Changelog Diff: " ++ repository.name ++ " (" ++ minVersion ++ " to " ++ maxVersion ++ ")"
  let md := formatMarkdownDiff fmtDate repository.name combinedChanges title withDates
  { content := md.content, title := md.title,
    fromVersion := minVersion, toVersion := maxVersion }

/- ===================== cache.ts: CacheManager ===================== -/

/-- cache.ts `CacheEntry` (the payload is kept structured: the
`JSON.stringify`/`JSON.parse` round trip is modelled as the identity). -/
structure CacheEntry where
  key : String
  repo : String
  fileMtime : Nat
  data : VersionChangesWithVersion
  createdAt : Int
deriving DecidableEq

/-- The `cache_entries` table: a point-lookup map keyed by the primary
key string. -/
def CacheDb := String → Option CacheEntry

/-- State of a `CacheManager` instance. -/
structure CacheState where
  enabled : Bool
  db : CacheDb
  ttlMs : Int

/-- Fuelled decimal digit rendering (structural recursion so that the
kernel can evaluate cache keys). -/
def natDigitsAux : Nat → Nat → List Char
  | 0, _ => []
  | fuel + 1, n =>
    if n < 10 then [Char.ofNat (48 + n)]
    else natDigitsAux fuel (n / 10) ++ [Char.ofNat (48 + n % 10)]

/-- Decimal rendering used by the `` `${fileMtime}` `` template-literal
fragment of the cache key. -/
def natDigits (n : Nat) : List Char :=
  natDigitsAux (n + 1) n

/-- cache.ts `CacheManager.generateCacheKey`:
`` `${repo}_${fileMtime}_${operation}_${params}` ``. -/
def generateCacheKey (repo : String) (fileMtime : Nat) (operation params : String) : String :=
  repo ++ "_" ++ (⟨natDigits fileMtime⟩ : String) ++ "_" ++ operation ++ "_" ++ params

/-- `DELETE FROM cache_entries WHERE key = ?`. -/
def dbDelete (db : CacheDb) (key : String) : CacheDb :=
  fun k => if k = key then none else db k

/-- `INSERT OR REPLACE INTO cache_entries`. -/
def dbInsert (db : CacheDb) (e : CacheEntry) : CacheDb :=
  fun k => if k = e.key then some e else db k

/-- cache.ts `CacheManager.get`.  The current mtime of the source file
(`getFileMtime`, `none` when the stat fails) and the current clock
(`Date.now()`) are passed as arguments; the returned pair is the value
handed to the caller together with the possibly-updated store (an
expired record is deleted). -/
def cacheGet (st : CacheState) (repo : String) (fileMtime : Option Nat)
    (operation params : String) (now : Int) :
    Option VersionChangesWithVersion × CacheState :=
  if !st.enabled then (none, st)
  else
    match fileMtime with
    | none => (none, st)
    | some m =>
      let key := generateCacheKey repo m operation params
      match st.db key with
      | none => (none, st)
      | some entry =>
        if now - entry.createdAt > st.ttlMs then
          (none, { st with db := dbDelete st.db key })
        else (some entry.data, st)

/-- cache.ts `CacheManager.set`, same conventions as `cacheGet`. -/
def cacheSet (st : CacheState) (repo : String) (fileMtime : Option Nat)
    (operation params : String) (data : VersionChangesWithVersion) (now : Int) : CacheState :=
  if !st.enabled then st
  else
    match fileMtime with
    | none => st
    | some m =>
      let key := generateCacheKey repo m operation params
      { st with db := dbInsert st.db ⟨key, repo, m, data, now⟩ }

/- ===================== fixtures and predicates ===================== -/

/-- A version with no date and no change sections. -/
def vEmpty (s : String) : Version := { version := s }

/-- The version list `[2.1.0, 2.0.0, 1.5.2, 1.0.0]` of spec section 8. -/
def exRepoC9 : Repository :=
  { name := "test-repo", path := "p",
    versions := [vEmpty "2.1.0", vEmpty "2.0.0", vEmpty "1.5.2", vEmpty "1.0.0"] }

/-- A changelog with a valid section, an unrecognized section header and a
list item after it. -/
def exC1content : String := "## [1.0.0]\n### Added\n- a\n### Bogus\n- b"

/-- The Unreleased changelog of spec section 8. -/
def exC6content : String := "## [Unreleased]\n### Added\n- one bullet"

/-- A changelog whose only version has a recognized section header with
zero list items. -/
def exC10content : String := "## [1.0.0]\n### Added"

/-- A repository whose only version has a non-semver label, so that the
`localeCompare` fallback decides `filterVersionsSince`. -/
def repoC2 : Repository :=
  { name := "r", path := "p",
    versions := [{ version := "a", changes := { added := some [⟨"x"⟩] } }] }

/-- The since-cache state left behind by `createSinceDiff(repoC2, null)`
on an empty cache: the payload for the whole changelog sits under the
literal marker key. -/
def cacheC2 : String → Option VersionChangesWithVersion :=
  fun k =>
    if k = "complete" then
      some (combineChangesWithVersions (filterVersionsSince repoC2 none))
    else none

/-- A repository with no versions. -/
def repoC3 : Repository := { name := "r", path := "p" }

/-- A parser state in the middle of an `### Added` section. -/
def stC1 : ParseState :=
  { currentVersion := some { version := "1.0.0", changes := { added := some [⟨"a"⟩] } },
    currentSection := some .added }

/-- A cache record written at time 0. -/
def eC8 : CacheEntry :=
  { key := generateCacheKey "r" 1 "since" "1.0.0", repo := "r", fileMtime := 1,
    data := {}, createdAt := 0 }

/-- An enabled cache holding only `eC8`, with a 10ms TTL. -/
def stC8 : CacheState :=
  { enabled := true, db := fun k => if k = eC8.key then some eC8 else none, ttlMs := 10 }

/-- A line that the section regex matches but whose name is not one of
the six recognized categories. -/
def unrecognizedSection (line : String) : Bool :=
  match sectionName? (strTrim line) with
  | some raw => (validSection? (lowerStr (strTrim raw))).isNone
  | none => false

/-- The case-insensitive `unreleased` label test of the parser. -/
def isUnrelName (s : String) : Bool :=
  lowerStr s = "unreleased"

/-- A line that starts a version block whose label is `unreleased`
(case-insensitively). -/
def unrelHeaderLine (line : String) : Bool :=
  match versionHeader? (strTrim line) with
  | some (label, _) => isUnrelName (strTrim label)
  | none => false

/-- Some line of the changelog text opens an Unreleased block. -/
def hasUnrelHeader (content : String) : Bool :=
  ((splitLines content.data).map (fun l => (⟨l⟩ : String))).any unrelHeaderLine

/-- A since argument whose value is not the literal marker string: the
one value for which `sinceVersion || 'complete'` conflates a version
label with the "no version given" marker. -/
abbrev goodSince (s : Option String) : Prop := s ≠ some "complete"

/-- Every record of the since-cache was produced (written through) by an
earlier `createSinceDiff` call on the same repository and source-file
state, none of them using the literal label `"complete"`. -/
def sinceCacheConsistent (repository : Repository)
    (cache : String → Option VersionChangesWithVersion) : Prop :=
  ∀ k p, cache k = some p →
    ∃ s, goodSince s ∧ sinceCacheKey s = k ∧
      p = combineChangesWithVersions (filterVersionsSince repository s)

/-- No version of the list carries the `unreleased` label. -/
def noUnrelIn (vs : List Version) : Prop :=
  ∀ v ∈ vs, isUnrelName v.version = false

/-- Loop invariant of `parseContent`: flushed versions are never
Unreleased blocks, and `isUnreleased` always describes the label of the
open block. -/
def stInv (st : ParseState) : Prop :=
  noUnrelIn st.versions ∧
    ∀ cv, st.currentVersion = some cv → st.isUnreleased = isUnrelName cv.version

/-- The parser has seen an Unreleased header: either the dedicated field
is already filled, or the open block is the Unreleased one. -/
def stHasUnrel (st : ParseState) : Prop :=
  st.unreleased.isSome ∨ (st.currentVersion.isSome ∧ st.isUnreleased = true)

/- ===================== helper lemmas ===================== -/

theorem lexCmp_antisymm (a b : List Char) : lexCmp a b = -(lexCmp b a) := by
  induction a generalizing b with
  | nil => cases b <;> simp [lexCmp]
  | cons x xs ih =>
    cases b with
    | nil => simp [lexCmp]
    | cons y ys =>
      simp only [lexCmp]
      rcases lt_trichotomy x y with h | h | h
      · rw [if_pos h, if_neg (asymm h), if_pos h]
      · subst h
        simp [lt_irrefl, ih ys]
      · rw [if_neg (asymm h), if_pos h, if_pos h]
        rfl

theorem compareVersions_antisymm (a b : String) :
    compareVersions a b = -(compareVersions b a) := by
  unfold compareVersions
  rcases h1 : parseVersion a with _ | v1 <;> rcases h2 : parseVersion b with _ | v2 <;>
    simp only []
  · exact lexCmp_antisymm a.data b.data
  · exact lexCmp_antisymm a.data b.data
  · exact lexCmp_antisymm a.data b.data
  · split_ifs <;> omega

theorem inRange_swap (v lo hi : String) (h : compareVersions lo hi ≠ 0) :
    isVersionInRange v lo hi = isVersionInRange v hi lo := by
  have hanti := compareVersions_antisymm lo hi
  unfold isVersionInRange
  rcases lt_trichotomy (compareVersions lo hi) 0 with hlt | heq | hgt
  · have c1 : compareVersions lo hi ≤ 0 := le_of_lt hlt
    have c2 : ¬ compareVersions hi lo ≤ 0 := by omega
    simp only [if_pos c1, if_neg c2]
  · exact absurd heq h
  · have c1 : ¬ compareVersions lo hi ≤ 0 := by omega
    have c2 : compareVersions hi lo ≤ 0 := by omega
    simp only [if_neg c1, if_pos c2]

theorem filterVersionsBetween_swap (repository : Repository) (v1 v2 : String)
    (h : compareVersions v1 v2 ≠ 0) :
    filterVersionsBetween repository v1 v2 = filterVersionsBetween repository v2 v1 := by
  unfold filterVersionsBetween
  exact List.filter_congr (fun x _ => inRange_swap x.version v1 v2 h)

/- ===================== claim theorems ===================== -/

/-- C4 counterexample: for the bounds `"1.0.0+a"` and `"1.0.0-a"` (both
parse to the triple (1,0,0), so `compare` returns 0 on them) and the
non-parsing probe `"1.0.0,z"` (compared to the bounds by the string
fallback, which places it strictly between them), `isInRange` is NOT
symmetric in its bound arguments. -/
theorem C4_counterexample :
    compareVersions "1.0.0+a" "1.0.0-a" = 0 ∧
    isVersionInRange "1.0.0,z" "1.0.0+a" "1.0.0-a" = true ∧
    isVersionInRange "1.0.0,z" "1.0.0-a" "1.0.0+a" = false := by
  decide

/-- C4 (amended): `isInRange` is symmetric in its bound arguments
whenever `compare` distinguishes the two bounds (or they are literally
equal); asymmetry can only arise when the two bounds are distinct
strings on which `compare` returns 0. -/
theorem C4_range_symmetric (v lo hi : String)
    (h : compareVersions lo hi ≠ 0 ∨ lo = hi) :
    isVersionInRange v lo hi = isVersionInRange v hi lo := by
  rcases h with h | rfl
  · exact inRange_swap v lo hi h
  · rfl

/-- C4 witness: the symmetry theorem applied at concrete bounds. -/
theorem C4_witness :
    compareVersions "1.0.0" "2.0.0" ≠ 0 ∧
    isVersionInRange "1.5.0" "1.0.0" "2.0.0" = isVersionInRange "1.5.0" "2.0.0" "1.0.0" :=
  ⟨by decide, C4_range_symmetric "1.5.0" "1.0.0" "2.0.0" (Or.inl (by decide))⟩

/-- C9: `filterSince` returns every version (in stored order) for a null
or blank argument, and otherwise exactly the versions that `isNewer`
accepts, in the same relative order; the nonexistent boundary `"1.5.1"`
against `[2.1.0, 2.0.0, 1.5.2, 1.0.0]` keeps the first three versions
and drops `1.0.0`. -/
theorem C9_filter_since (repository : Repository) (s t : String)
    (hs : strTrim s = "") (ht : strTrim t ≠ "") :
    filterVersionsSince repository none = repository.versions ∧
    filterVersionsSince repository (some s) = repository.versions ∧
    filterVersionsSince repository (some t) =
      repository.versions.filter (fun v => isVersionNewer v.version t) ∧
    filterVersionsSince exRepoC9 (some "1.5.1") =
      [vEmpty "2.1.0", vEmpty "2.0.0", vEmpty "1.5.2"] := by
  refine ⟨rfl, ?_, ?_, by decide⟩
  · simp [filterVersionsSince, hs]
  · simp [filterVersionsSince, ht]

/-- C9 witness: the filter theorem applied to the example repository
with a whitespace-only and a non-blank boundary. -/
theorem C9_witness :
    filterVersionsSince exRepoC9 (some "   ") = exRepoC9.versions ∧
    filterVersionsSince exRepoC9 (some "1.5.1") =
      [vEmpty "2.1.0", vEmpty "2.0.0", vEmpty "1.5.2"] :=
  ⟨(C9_filter_since exRepoC9 "   " "1.5.1" (by decide) (by decide)).2.1,
   (C9_filter_since exRepoC9 "   " "1.5.1" (by decide) (by decide)).2.2.2⟩

/-- C10: a recognized section header with zero list items leaves the
category key present and bound to the empty list in the parsed version
(distinguishing it from an absent key), while `combine` omits any
category to which no version contributes an entry — in particular the
combined output of the example changelog is empty. -/
theorem C10_empty_section (versions : List Version) (c : Category)
    (h : sectionEntries versions c = []) :
    (combineChangesWithVersions versions).get c = none ∧
    (parseContent "n" "p" exC10content).versions =
      [{ version := "1.0.0", date := none, changes := { added := some [] } }] ∧
    combineChangesWithVersions (parseContent "n" "p" exC10content).versions = {} := by
  refine ⟨?_, by decide, by decide⟩
  cases c <;>
    simp [combineChangesWithVersions, VersionChangesWithVersion.get, combineSection, h]

/-- C10 witness: the combine theorem applied to the empty version list. -/
theorem C10_witness :
    sectionEntries [] .added = [] ∧ (combineChangesWithVersions []).get .added = none :=
  ⟨by decide, (C10_empty_section [] .added (by decide)).1⟩

/-- C3 counterexample: with no since version and a custom title that
sanitizes to the empty string, `createSinceDiff` resolves the title to
`'New updates!'`, not the "complete changelog" title the claim
predicts (the `if (!customTitle)` guard blocks the fallback as soon as
a custom title is present, even a useless one). -/
theorem C3_counterexample :
    (createSinceDiff (fun _ => "") repoC3 (fun _ => none) none (some "***") false).title
      = "New updates!" ∧
    (createSinceDiff (fun _ => "") repoC3 (fun _ => none) none (some "***") false).title
      ≠ "Complete Changelog" := by
  decide

/-- C3 (amended): title resolution of `createSinceDiff` — a non-empty
custom title that sanitizes non-empty wins; a non-empty custom title
that sanitizes to the empty string yields `'New updates!'` regardless
of the since argument; with no custom title (or the empty string, which
behaves identically), a blank since argument yields
`'Complete Changelog'` and a non-blank one `'New updates!'`. -/
theorem C3_title_resolution (sinceVersion : Option String) (ct : String)
    (repository : Repository) (cache : String → Option VersionChangesWithVersion)
    (fmtDate : String → String) (withDates : Bool) (hct : ct ≠ "") :
    (sanitizeTitle ct ≠ "" → resolveSinceTitle sinceVersion (some ct) = sanitizeTitle ct) ∧
    (sanitizeTitle ct = "" → resolveSinceTitle sinceVersion (some ct) = "New updates!") ∧
    (sinceIsBlank sinceVersion = true → resolveSinceTitle sinceVersion none = "Complete Changelog") ∧
    (sinceIsBlank sinceVersion = false → resolveSinceTitle sinceVersion none = "New updates!") ∧
    resolveSinceTitle sinceVersion (some "") = resolveSinceTitle sinceVersion none ∧
    (createSinceDiff fmtDate repository cache sinceVersion (some ct) withDates).title
      = resolveSinceTitle sinceVersion (some ct) := by
  have htruthy : optTruthy (some ct) = true := by simp [optTruthy, hct]
  refine ⟨?_, ?_, ?_, ?_, ?_, rfl⟩
  · intro h
    simp [resolveSinceTitle, htruthy, h]
  · intro h
    simp [resolveSinceTitle, htruthy, h]
  · intro h
    simp [resolveSinceTitle, optTruthy, h]
  · intro h
    simp [resolveSinceTitle, optTruthy, h]
  · simp [resolveSinceTitle, optTruthy]

/-- C3 witness: the title-resolution theorem applied at a concrete
since version and custom title. -/
theorem C3_witness :
    sanitizeTitle "T" ≠ "" ∧ resolveSinceTitle (some "1.0.0") (some "T") = sanitizeTitle "T" :=
  ⟨by decide,
   (C3_title_resolution (some "1.0.0") "T" repoC3 (fun _ => none) (fun _ => "") false
      (by decide)).1 (by decide)⟩

/-- C5 counterexample: for the distinct version labels `"1.0.0-a"` and
`"1.0.0-b"`, on which `compare` returns 0, `createRangeDiff` builds a
different cache key and a different `fromVersion` depending on the
order of its two version arguments. -/
theorem C5_counterexample :
    rangeCacheKey "1.0.0-a" "1.0.0-b" ≠ rangeCacheKey "1.0.0-b" "1.0.0-a" ∧
    (createRangeDiff (fun _ => "") repoC3 (fun _ => none) "1.0.0-a" "1.0.0-b" false).fromVersion
      = "1.0.0-a" ∧
    (createRangeDiff (fun _ => "") repoC3 (fun _ => none) "1.0.0-b" "1.0.0-a" false).fromVersion
      = "1.0.0-b" ∧
    compareVersions "1.0.0-a" "1.0.0-b" = 0 := by
  decide

/-- C5 (amended): whenever `compare` distinguishes the two version
arguments, `createRangeDiff` produces an identical response (content,
title, fromVersion, toVersion) and an identical cache key for either
argument order, with `fromVersion` the compare-smaller and `toVersion`
the compare-larger argument; only distinct labels on which `compare`
returns 0 escape the normalization. -/
theorem C5_range_order_independent (fmtDate : String → String) (repository : Repository)
    (cache : String → Option VersionChangesWithVersion) (v1 v2 : String) (withDates : Bool)
    (h : compareVersions v1 v2 ≠ 0) :
    createRangeDiff fmtDate repository cache v1 v2 withDates
      = createRangeDiff fmtDate repository cache v2 v1 withDates ∧
    rangeCacheKey v1 v2 = rangeCacheKey v2 v1 ∧
    (compareVersions v1 v2 < 0 →
      (createRangeDiff fmtDate repository cache v1 v2 withDates).fromVersion = v1 ∧
      (createRangeDiff fmtDate repository cache v1 v2 withDates).toVersion = v2) := by
  have hanti := compareVersions_antisymm v1 v2
  have hfilter := filterVersionsBetween_swap repository v1 v2 h
  rcases lt_trichotomy (compareVersions v1 v2) 0 with hlt | heq | hgt
  · have c1 : compareVersions v1 v2 ≤ 0 := le_of_lt hlt
    have c2 : ¬ compareVersions v2 v1 ≤ 0 := by omega
    refine ⟨?_, ?_, fun _ => ⟨?_, ?_⟩⟩ <;>
      simp only [createRangeDiff, rangeCacheKey, if_pos c1, if_neg c2, hfilter]
  · exact absurd heq h
  · have c1 : ¬ compareVersions v1 v2 ≤ 0 := by omega
    have c2 : compareVersions v2 v1 ≤ 0 := by omega
    refine ⟨?_, ?_, fun hlt2 => absurd hlt2 (by omega)⟩ <;>
      simp only [createRangeDiff, rangeCacheKey, if_neg c1, if_pos c2, hfilter]

/-- C5 witness: order independence applied at a concrete compare-distinct
pair. -/
theorem C5_witness :
    compareVersions "1.0.0" "2.0.0" ≠ 0 ∧
    createRangeDiff (fun _ => "") repoC3 (fun _ => none) "1.0.0" "2.0.0" false
      = createRangeDiff (fun _ => "") repoC3 (fun _ => none) "2.0.0" "1.0.0" false :=
  ⟨by decide,
   (C5_range_order_independent (fun _ => "") repoC3 (fun _ => none) "1.0.0" "2.0.0" false
      (by decide)).1⟩

theorem filterSince_key_eq (repository : Repository) (s s' : Option String)
    (hs : goodSince s) (hs' : goodSince s') (hk : sinceCacheKey s = sinceCacheKey s') :
    filterVersionsSince repository s = filterVersionsSince repository s' := by
  rcases s with _ | v <;> rcases s' with _ | v'
  · rfl
  · simp only [sinceCacheKey] at hk
    by_cases hv' : v' = ""
    · subst hv'
      simp [filterVersionsSince, strTrim, trimChars]
    · rw [if_neg hv'] at hk
      exact absurd (congrArg some hk.symm) hs'
  · simp only [sinceCacheKey] at hk
    by_cases hv : v = ""
    · subst hv
      simp [filterVersionsSince, strTrim, trimChars]
    · rw [if_neg hv] at hk
      exact absurd (congrArg some hk) hs
  · simp only [sinceCacheKey] at hk
    by_cases hv : v = "" <;> by_cases hv' : v' = ""
    · subst hv; subst hv'; rfl
    · rw [if_pos hv, if_neg hv'] at hk
      exact absurd (congrArg some hk.symm) hs'
    · rw [if_neg hv, if_pos hv'] at hk
      exact absurd (congrArg some hk) hs
    · rw [if_neg hv, if_neg hv'] at hk
      rw [hk]

/-- C2 counterexample: after `createSinceDiff(repoC2, null)` populated
the cache (state `cacheC2`), a call with the version label
`"complete"` resolves to the same cache key as the null call and serves
the complete-changelog payload, so its content differs from the direct
uncached computation for that label. -/
theorem C2_counterexample :
    sinceCacheKey (some "complete") = sinceCacheKey none ∧
    createSinceDiff (fun _ => "") repoC2 cacheC2 (some "complete") none false
      ≠ uncachedSinceDiff (fun _ => "") repoC2 (some "complete") none false := by
  decide

/-- C2 (amended): as long as no call (the current one or any cache
populating one) passes the literal label `"complete"`, `createSinceDiff`
renders exactly what the direct uncached computation
`combine(filterSince(repo, since))` renders — blank since arguments
share the marker key but also share the payload, so the refinement
survives them. -/
theorem C2_since_refinement (fmtDate : String → String) (repository : Repository)
    (cache : String → Option VersionChangesWithVersion)
    (sinceVersion customTitle : Option String) (withDates : Bool)
    (h1 : goodSince sinceVersion) (h2 : sinceCacheConsistent repository cache) :
    createSinceDiff fmtDate repository cache sinceVersion customTitle withDates
      = uncachedSinceDiff fmtDate repository sinceVersion customTitle withDates := by
  cases hc : cache (sinceCacheKey sinceVersion) with
  | none => simp [createSinceDiff, uncachedSinceDiff, hc]
  | some p =>
    obtain ⟨s, hs, hk, hp⟩ := h2 _ _ hc
    have hf : filterVersionsSince repository s = filterVersionsSince repository sinceVersion :=
      filterSince_key_eq repository s sinceVersion hs h1 (by rw [hk])
    simp [createSinceDiff, uncachedSinceDiff, hc, hp, hf]

/-- C2 witness: the refinement theorem applied to an empty (vacuously
consistent) cache and a concrete since version. -/
theorem C2_witness :
    goodSince (some "1.0.0") ∧
    createSinceDiff (fun _ => "") repoC2 (fun _ => none) (some "1.0.0") none false
      = uncachedSinceDiff (fun _ => "") repoC2 (some "1.0.0") none false :=
  ⟨by decide,
   C2_since_refinement (fun _ => "") repoC2 (fun _ => none) (some "1.0.0") none false
     (by decide) (fun _ p h => Option.noConfusion h)⟩

theorem charOfNat_digit (d : Nat) (h : d < 10) : (Char.ofNat (48 + d)).toNat - 48 = d := by
  interval_cases d <;> decide

theorem digitsToNat_append (xs : List Char) (c : Char) :
    digitsToNat (xs ++ [c]) = digitsToNat xs * 10 + (c.toNat - 48) := by
  simp [digitsToNat, List.foldl_append]

theorem digitsToNat_natDigitsAux (fuel n : Nat) (h : n < fuel) :
    digitsToNat (natDigitsAux fuel n) = n := by
  induction fuel generalizing n with
  | zero => omega
  | succ fuel ih =>
    rw [natDigitsAux]
    split
    · next h10 =>
      simp [digitsToNat]
      exact charOfNat_digit n h10
    · next h10 =>
      have hdiv : n / 10 < fuel := by
        have := Nat.div_lt_self (show 0 < n by omega) (show 1 < 10 by omega)
        omega
      rw [digitsToNat_append, ih (n / 10) hdiv, charOfNat_digit (n % 10) (Nat.mod_lt n (by omega))]
      omega

theorem natDigits_inj {m n : Nat} (h : natDigits m = natDigits n) : m = n := by
  have hm := digitsToNat_natDigitsAux (m + 1) m (by omega)
  have hn := digitsToNat_natDigitsAux (n + 1) n (by omega)
  unfold natDigits at h
  rw [h, hn] at hm
  omega

theorem strData_append (s t : String) : (s ++ t).data = s.data ++ t.data := rfl

theorem strData_mk (l : List Char) : (⟨l⟩ : String).data = l := rfl

theorem generateCacheKey_mtime_inj {repo op params : String} {m m' : Nat}
    (h : generateCacheKey repo m op params = generateCacheKey repo m' op params) :
    m = m' := by
  apply natDigits_inj
  have hd := congrArg String.data h
  simp only [generateCacheKey, strData_append, strData_mk, List.append_assoc] at hd
  have h1 := List.append_cancel_left hd
  have h2 := List.append_cancel_left h1
  exact List.append_cancel_right h2

/-- C7: with the cache enabled and the source file unchanged (same
mtime), a `get` with arguments identical to an immediately preceding
`set` and an age within the TTL returns exactly the payload written;
and because the derived key embeds the mtime read at call time, after a
`set` any change of the file's mtime makes the subsequent `get` with
the same repository, operation and parameters miss (stated from the
empty store, so the only record is the one just written). -/
theorem C7_cache_roundtrip (db : CacheDb) (ttl : Int)
    (repo op params : String) (payload : VersionChangesWithVersion)
    (m m2 : Nat) (t1 t2 : Int) (httl : t2 - t1 ≤ ttl) (hm : m2 ≠ m) :
    (cacheGet (cacheSet ⟨true, db, ttl⟩ repo (some m) op params payload t1)
        repo (some m) op params t2).1 = some payload ∧
    (cacheGet (cacheSet ⟨true, fun _ => none, ttl⟩ repo (some m) op params payload t1)
        repo (some m2) op params t2).1 = none := by
  constructor
  · have hlook : dbInsert db ⟨generateCacheKey repo m op params, repo, m, payload, t1⟩
        (generateCacheKey repo m op params)
        = some ⟨generateCacheKey repo m op params, repo, m, payload, t1⟩ := by
      simp [dbInsert]
    simp [cacheSet, cacheGet, hlook]
    rw [if_neg (by omega : ¬ t2 - t1 > ttl)]
  · have hkey : generateCacheKey repo m2 op params ≠ generateCacheKey repo m op params :=
      fun hk => hm (generateCacheKey_mtime_inj hk)
    have hlook : dbInsert (fun _ => none)
        ⟨generateCacheKey repo m op params, repo, m, payload, t1⟩
        (generateCacheKey repo m2 op params) = none := by
      simp [dbInsert, hkey]
    simp [cacheSet, cacheGet, hlook]

/-- C7 witness: round trip and mtime invalidation at concrete values. -/
theorem C7_witness :
    (cacheGet (cacheSet ⟨true, fun _ => none, 100⟩ "r" (some 1) "since" "1.0.0" {} 0)
        "r" (some 1) "since" "1.0.0" 50).1 = some {} ∧
    (cacheGet (cacheSet ⟨true, fun _ => none, 100⟩ "r" (some 1) "since" "1.0.0" {} 0)
        "r" (some 2) "since" "1.0.0" 50).1 = none :=
  C7_cache_roundtrip (fun _ => none) 100 "r" "since" "1.0.0" {} 1 2 0 50 (by decide) (by decide)

/-- C8: cache operations never surface an error — a `get` whose file
stat fails is an unconditional miss that leaves the store untouched, a
`set` whose file stat fails is a no-op, and a record found by `get`
whose age exceeds the TTL is deleted from the store and reported as a
miss (the operations are total functions: every storage state yields a
value or a no-op, never a thrown error). -/
theorem C8_cache_degradation (st : CacheState) (repo op params : String)
    (payload : VersionChangesWithVersion) (m : Nat) (now : Int) (e : CacheEntry)
    (henb : st.enabled = true)
    (he : st.db (generateCacheKey repo m op params) = some e)
    (hexp : now - e.createdAt > st.ttlMs) :
    (∀ st2 : CacheState, cacheGet st2 repo none op params now = (none, st2) ∧
        cacheSet st2 repo none op params payload now = st2) ∧
    (cacheGet st repo (some m) op params now).1 = none ∧
    ((cacheGet st repo (some m) op params now).2).db (generateCacheKey repo m op params)
      = none := by
  refine ⟨fun st2 => ⟨?_, ?_⟩, ?_, ?_⟩
  · simp [cacheGet]
  · simp [cacheSet]
  · simp [cacheGet, henb, he, if_pos hexp]
  · simp [cacheGet, henb, he, if_pos hexp, dbDelete]

/-- C8 witness: the degradation theorem applied to a store holding one
expired record. -/
theorem C8_witness :
    (cacheGet stC8 "r" (some 1) "since" "1.0.0" 11).1 = none :=
  (C8_cache_degradation stC8 "r" "since" "1.0.0" {} 1 11 eC8 (by decide) (by decide)
    (by decide)).2.1

theorem sectionLine_not_versionHeader (t r : String) (h : sectionName? t = some r) :
    versionHeader? t = none := by
  unfold sectionName? at h
  split at h
  · next heq =>
    unfold versionHeader?
    rw [heq]
    rfl
  · simp at h

theorem noUnrelIn_flushCurrent (st : ParseState) (h : stInv st) :
    noUnrelIn (flushCurrent st).versions := by
  unfold flushCurrent
  split
  · exact h.1
  · next cv heq =>
    split
    · exact h.1
    · next hunrel =>
      intro v hv
      rcases List.mem_append.1 hv with hv | hv
      · exact h.1 v hv
      · have hvcv : v = cv := by simpa using hv
        subst hvcv
        have h2 := h.2 v heq
        simp only [Bool.not_eq_true] at hunrel
        rw [hunrel] at h2
        exact h2.symm

theorem flushCurrent_unreleased_isSome (st : ParseState) (h : stHasUnrel st) :
    (flushCurrent st).unreleased.isSome := by
  unfold flushCurrent
  rcases h with h | ⟨hcv, hunrel⟩
  · split
    · exact h
    · split
      · simp
      · exact h
  · obtain ⟨cv, hcv'⟩ := Option.isSome_iff_exists.1 hcv
    simp only [hcv', hunrel, if_true]
    simp

theorem stInv_parseStep (st : ParseState) (line : String) (h : stInv st) :
    stInv (parseStep st line) := by
  unfold parseStep
  dsimp only
  split
  · exact h
  · split
    · -- version header line
      refine ⟨noUnrelIn_flushCurrent st h, ?_⟩
      intro cv hcv
      injection hcv with hcv
      subst hcv
      rfl
    · split
      · -- section header line
        split
        · next cv heq =>
          split
          · -- recognized section
            refine ⟨h.1, ?_⟩
            intro cv' hcv'
            injection hcv' with hcv'
            subst hcv'
            split
            · exact h.2 cv heq
            · exact h.2 cv heq
          · exact h
        · exact h
      · split
        · -- list item line
          split
          · next cv cat heq1 heq2 =>
            refine ⟨h.1, ?_⟩
            intro cv' hcv'
            injection hcv' with hcv'
            subst hcv'
            exact h.2 cv heq1
          · exact h
        · exact h

theorem stHasUnrel_parseStep (st : ParseState) (line : String) (h : stHasUnrel st) :
    stHasUnrel (parseStep st line) := by
  unfold parseStep
  dsimp only
  split
  · exact h
  · split
    · -- version header line: the flush preserves (or establishes) the field
      left
      exact flushCurrent_unreleased_isSome st h
    · split
      · split
        · split
          · -- recognized section: block stays open, flags untouched
            rcases h with h | ⟨_, hunrel⟩
            · left
              exact h
            · right
              exact ⟨by simp, hunrel⟩
          · exact h
        · exact h
      · split
        · split
          · -- list item appended: block stays open, flags untouched
            rcases h with h | ⟨_, hunrel⟩
            · left
              exact h
            · right
              exact ⟨by simp, hunrel⟩
          · exact h
        · exact h

theorem stHasUnrel_parseStep_of_header (st : ParseState) (line : String)
    (hl : unrelHeaderLine line = true) : stHasUnrel (parseStep st line) := by
  unfold unrelHeaderLine at hl
  cases hv : versionHeader? (strTrim line) with
  | none =>
    rw [hv] at hl
    exact absurd hl (by simp)
  | some p =>
    obtain ⟨label, rawDate⟩ := p
    rw [hv] at hl
    have hne : strTrim line ≠ "" := by
      intro h0
      have hnone : versionHeader? "" = none := rfl
      rw [h0, hnone] at hv
      exact Option.noConfusion hv
    unfold parseStep
    dsimp only
    rw [if_neg hne, hv]
    right
    refine ⟨by simp, ?_⟩
    exact hl

theorem stInv_foldl (lines : List String) (st : ParseState) (h : stInv st) :
    stInv (lines.foldl parseStep st) := by
  induction lines generalizing st with
  | nil => exact h
  | cons l ls ih => exact ih _ (stInv_parseStep st l h)

theorem stHasUnrel_foldl (lines : List String) (st : ParseState) (h : stHasUnrel st) :
    stHasUnrel (lines.foldl parseStep st) := by
  induction lines generalizing st with
  | nil => exact h
  | cons l ls ih => exact ih _ (stHasUnrel_parseStep st l h)

theorem stHasUnrel_foldl_of_mem (lines : List String) (st : ParseState)
    (h : ∃ l ∈ lines, unrelHeaderLine l = true) :
    stHasUnrel (lines.foldl parseStep st) := by
  induction lines generalizing st with
  | nil =>
    obtain ⟨l, hl, _⟩ := h
    exact absurd hl (List.not_mem_nil l)
  | cons l ls ih =>
    obtain ⟨l2, hl2, hu⟩ := h
    simp only [List.foldl_cons]
    rcases List.mem_cons.1 hl2 with rfl | hl2
    · exact stHasUnrel_foldl ls _ (stHasUnrel_parseStep_of_header st l2 hu)
    · exact ih _ ⟨l2, hl2, hu⟩

/-- C6: a version block labelled `unreleased` (case-insensitively) never
appears in the parsed Versions sequence, and whenever such a header
occurs anywhere in the text the dedicated Unreleased field is filled;
on the spec's example (`## [Unreleased]`, `### Added`, one bullet) the
unreleased added-list has exactly one entry and `versions` is empty. -/
theorem C6_unreleased_extraction (nm pth content : String) (v : Version)
    (hv : v ∈ (parseContent nm pth content).versions) :
    isUnrelName v.version = false ∧
    (∀ c2 : String, hasUnrelHeader c2 = true →
      ((parseContent nm pth c2).unreleased).isSome = true) ∧
    (parseContent "n" "p" exC6content).unreleased = some { added := some [⟨"one bullet"⟩] } ∧
    (parseContent "n" "p" exC6content).versions = [] := by
  refine ⟨?_, ?_, by decide, by decide⟩
  · have hinit : stInv {} :=
      ⟨fun v hv => absurd hv (List.not_mem_nil v), fun cv hcv => Option.noConfusion hcv⟩
    have hinv := stInv_foldl
      (((splitLines content.data)).map (fun l => (⟨l⟩ : String))) {} hinit
    simp only [parseContent] at hv
    exact noUnrelIn_flushCurrent _ hinv v hv
  · intro c2 hc2
    have hmem : ∃ l ∈ (splitLines c2.data).map (fun l => (⟨l⟩ : String)),
        unrelHeaderLine l = true := by
      simpa [hasUnrelHeader, List.any_eq_true] using hc2
    have hq := stHasUnrel_foldl_of_mem
      ((splitLines c2.data).map (fun l => (⟨l⟩ : String))) {} hmem
    simp only [parseContent]
    exact flushCurrent_unreleased_isSome _ hq

/-- C6 witness: the extraction theorem applied to a changelog with one
ordinary version. -/
theorem C6_witness :
    isUnrelName (Version.mk "1.0.0" none {}).version = false :=
  (C6_unreleased_extraction "n" "p" "## [1.0.0]" (Version.mk "1.0.0" none {}) (by decide)).1

/-- C1 counterexample: in `exC1content` the list item after the
unrecognized `### Bogus` header is NOT dropped — it is appended to the
still-active `added` section of the open version, so the parsed added
list is `[a, b]` rather than the `[a]` the claim predicts. -/
theorem C1_counterexample :
    (parseContent "n" "p" exC1content).versions =
      [{ version := "1.0.0", date := none, changes := { added := some [⟨"a"⟩, ⟨"b"⟩] } }] ∧
    ¬ (parseContent "n" "p" exC1content).versions.map (fun v => v.changes.added)
        = [some [⟨"a"⟩]] := by
  decide

/-- C1 (amended): a `### <name>` line whose name is not one of the six
recognized categories, encountered while a version is active, leaves
the parser state entirely unchanged — in particular the current section
is retained, not un-set, so subsequent list items are appended to the
previously active section (and are only dropped when no valid section
has been active since the version header). -/
theorem C1_unrecognized_section_keeps_state (st : ParseState) (line : String)
    (h1 : unrecognizedSection line = true) (h2 : st.currentVersion.isSome = true) :
    parseStep st line = st := by
  unfold unrecognizedSection at h1
  cases hs : sectionName? (strTrim line) with
  | none =>
    rw [hs] at h1
    exact absurd h1 (by simp)
  | some raw =>
    rw [hs] at h1
    simp only [Option.isNone_iff_eq_none] at h1
    have hne : strTrim line ≠ "" := by
      intro h0
      have hnone : sectionName? "" = none := rfl
      rw [h0, hnone] at hs
      exact Option.noConfusion hs
    have hvh := sectionLine_not_versionHeader (strTrim line) raw hs
    obtain ⟨cv, hcv⟩ := Option.isSome_iff_exists.1 h2
    unfold parseStep
    dsimp only
    rw [if_neg hne, hvh, hs, hcv]
    dsimp only
    rw [h1]

/-- C1 witness: the state-preservation theorem applied to a concrete
mid-section state and the line `### Bogus`. -/
theorem C1_witness :
    unrecognizedSection "### Bogus" = true ∧ parseStep stC1 "### Bogus" = stC1 :=
  ⟨by decide, C1_unrecognized_section_keeps_state stC1 "### Bogus" (by decide) (by decide)⟩
